import Mathlib

/-!
Verification of the binary layout scanner and decoder of `python-iracing-api`
(`src/api.py`), shallowly embedded in Lean.

A Python 2 `str` is a byte string; we model it as `List Nat` (each element a
byte value).  The memory-mapped region is a `List Nat`; sequential reads
(`readline`, `read(1)`) are modelled on the remaining suffix of the region,
and absolute slicing `mmp[a:b]` is modelled by `pySlice`, which follows
Python's slice semantics (negative indices counted from the end, silent
clamping to the region, never an error).

Python exceptions are modelled with `Except PyErr`: `keyError` for dict
lookups (`UnknownVariable` in the design's taxonomy), `structError` for
`struct.error` (length mismatch / bad format, the `OutOfBounds` /
`MalformedRegion` surface), `indexError` for list indexing.  `struct.unpack`
of a float is modelled as returning the raw little-endian bit pattern, since
no arithmetic is ever performed on decoded floats here.
-/

namespace IRacing

/-- A byte value (0..255) of the shared region; a Python 2 `str` is `List Byte`. -/
abbrev Byte := Nat

/-- Python exceptions that the embedded code can raise. -/
inductive PyErr where
  | keyError
  | structError
  | indexError
  | osError
  deriving DecidableEq

/-- A decoded scalar value.  Floats are carried as raw IEEE bit patterns
(the little-endian integer formed by their bytes): the code never computes
with them, it only hands them to the caller. -/
inductive Value where
  | char (b : Byte)
  | bool (b : Bool)
  | int (i : Int)
  | uint (n : Nat)
  | float32 (bits : Nat)
  | float64 (bits : Nat)
  deriving DecidableEq

/-- `TYPEMAP = ['c', '?', 'i', 'I', 'f', 'd']` from `api.py`. -/
def TYPEMAP : List Char := ['c', '?', 'i', 'I', 'f', 'd']

/-- `struct.calcsize` for the format characters in `TYPEMAP`. -/
def structCalcsize : Char → Nat
  | 'c' => 1
  | '?' => 1
  | 'i' => 4
  | 'I' => 4
  | 'f' => 4
  | 'd' => 8
  | _ => 0

/-- Little-endian integer formed by a byte string. -/
def leNat (data : List Byte) : Nat :=
  data.foldr (fun b acc => b + 256 * acc) 0

/-- Reinterpret an unsigned 32-bit value as a signed one (two's complement). -/
def toInt32 (n : Nat) : Int :=
  if n < 2 ^ 31 then (n : Int) else (n : Int) - 2 ^ 32

/-- The value produced by `struct.unpack(t, data)` once the length check has
passed.  `'c'` yields the single byte, `'?'` is true iff the byte is nonzero,
`'i'`/`'I'` are little-endian 32-bit signed/unsigned, `'f'`/`'d'` yield the
raw bit pattern. -/
def decodeVal (t : Char) (data : List Byte) : Value :=
  match t with
  | 'c' => .char (data.headD 0)
  | '?' => .bool (data.headD 0 != 0)
  | 'i' => .int (toInt32 (leNat data))
  | 'I' => .uint (leNat data)
  | 'f' => .float32 (leNat data)
  | _ => .float64 (leNat data)

/-- `struct.unpack(t, data)[0]`: raises `struct.error` when the format
character is unknown or when `data` is not exactly `calcsize(t)` bytes. -/
def structUnpack (t : Char) (data : List Byte) : Except PyErr Value :=
  if t ∈ TYPEMAP then
    if data.length = structCalcsize t then .ok (decodeVal t data)
    else .error .structError
  else .error .structError

/-- Python slice `l[a:b]`: a negative endpoint counts from the end, and both
endpoints are clamped to the list; the result is never an error. -/
def pySlice (l : List Byte) (a b : Int) : List Byte :=
  let n := l.length
  let a' : Nat := if a < 0 then ((n : Int) + a).toNat else min a.toNat n
  let b' : Nat := if b < 0 then ((n : Int) + b).toNat else min b.toNat n
  (l.take b').drop a'

/-- `API._get(position, type)`: `size = struct.calcsize(type)`, slice
`mmp[position:position+size]`, `struct.unpack` it.  (The `if val is None`
branch of the source is dead: `unpack` never yields `None` for these
formats.) -/
def pyGet (region : List Byte) (position : Int) (t : Char) : Except PyErr Value :=
  structUnpack t (pySlice region position (position + structCalcsize t))

/-- `mmap.readline()` on the remaining bytes: consume up to and including the
first newline (byte 10), or everything when there is none (EOF). -/
def readlineL : List Byte → List Byte × List Byte
  | [] => ([], [])
  | b :: bs =>
    if b = 10 then ([10], bs)
    else
      let p := readlineL bs
      (b :: p.1, p.2)

/-- Python `str.strip` whitespace set. -/
def isPySpace (b : Byte) : Bool :=
  b == 32 || b == 9 || b == 10 || b == 13 || b == 11 || b == 12

/-- Python `str.strip()`: drop leading and trailing whitespace. -/
def pyStrip (l : List Byte) : List Byte :=
  ((l.dropWhile isPySpace).reverse.dropWhile isPySpace).reverse

/-- The loop of `API._yaml_end`, with explicit fuel: read a line from the
remaining bytes; when its stripped content is `...` (bytes 46 46 46) return
the accumulated offset, otherwise add the line's length and continue.
`none` means the fuel ran out, i.e. the loop had not returned within that
many iterations. -/
def yamlEndAux : Nat → List Byte → Nat → Option Nat
  | 0, _, _ => none
  | fuel + 1, remaining, offset =>
    let lr := readlineL remaining
    if pyStrip lr.1 = [46, 46, 46] then some offset
    else yamlEndAux fuel lr.2 (offset + lr.1.length)

/-- `API._yaml_end`: read the header line, run the loop, and return
`offset + len(headers) + 4`. -/
def yamlEndFull (region : List Byte) (fuel : Nat) : Option Nat :=
  let hr := readlineL region
  (yamlEndAux fuel hr.2 0).map (fun offset => offset + hr.1.length + 4)

/-- The name field of a 144-byte descriptor record: `header[16:48]` with all
null bytes removed (`replace('\x00','')`). -/
def headerName (header : List Byte) : List Byte :=
  ((header.drop 16).take 32).filter (fun b => b != 0)

/-- The loop of `API._telemetry_names`: read 144-byte records from the
remaining bytes, stopping (normally, not as an error) at the first record
whose name field is empty. -/
def telemetryNamesFrom (bytes : List Byte) : List (List Byte) :=
  if h : headerName (bytes.take 144) = [] then []
  else headerName (bytes.take 144) :: telemetryNamesFrom (bytes.drop 144)
termination_by bytes.length
decreasing_by
  cases bytes with
  | nil => simp [headerName] at h
  | cons a l =>
    simp only [List.length_drop, List.length_cons]
    omega

/-- `API._telemetry_names` starting just after the metadata boundary:
`_telemetry_header_start` skips bytes while they are `'\x00'` (any non-null
byte, whitespace included, stops the scan), then records are read. -/
def telemetryNames (afterYaml : List Byte) : List (List Byte) :=
  telemetryNamesFrom (afterYaml.dropWhile (fun b => b == 0))

/-- Python list indexing `l[i]` for `TYPEMAP`: `0 <= i < len` reads from the
front, `-len <= i < 0` reads from the end, anything else raises IndexError. -/
def pyListGet (l : List Char) (i : Int) : Except PyErr Char :=
  if 0 ≤ i ∧ i < l.length then .ok (l.getD i.toNat 'c')
  else if 0 ≤ i + l.length ∧ i < 0 then .ok (l.getD (i + l.length).toNat 'c')
  else .error .indexError

/-- `TYPEMAP[int(self._get(type_loc, 'i'))]` from `API._var_types`, as a
function of the decoded type code. -/
def varTypeFor (code : Int) : Except PyErr Char :=
  pyListGet TYPEMAP code

/-- `API._iracing_alive`: `try: seek(0); return read(1) == '\x01' except:
return False`.  The argument is the outcome of acquiring the mapped region:
`error` models the mmap/seek/read raising, `ok region` a readable region
(`read(1)` at EOF yields the empty string, which is not `'\x01'`). -/
def iracingAlive (mm : Except PyErr (List Byte)) : Bool :=
  match mm with
  | .error _ => false
  | .ok region =>
    match region.head? with
    | some b => b == 1
    | none => false

/-- The resolved per-session state consumed by `API.telemetry`:
the region, the cached dictionaries `_var_offsets`, `_sizes`, `_var_types`
(keyed by variable name), the cached `_buffer_offsets` list, and the cached
`_telemetry_names` list. -/
structure Session where
  region : List Byte
  varOffsets : List (List Byte × Int)
  sizes : List (List Byte × Nat)
  varTypes : List (List Byte × Char)
  bufferOffsets : List Int
  telemNames : List (List Byte)

/-- The `for buf_o in self._buffer_offsets` loop of `API.telemetry`:
slice `mmp[val_o+buf_o : val_o+buf_o+sizes[key]]`; if the slice has a nonzero
byte, unpack and return it; otherwise try the next buffer; after the last
buffer fall off the loop and return Python `None` (modelled `Option.none`,
the `Unknown` sentinel). -/
def telemetryLoop (s : Session) (key : List Byte) (val_o : Int) :
    List Int → Except PyErr (Option Value)
  | [] => .ok none
  | buf_o :: rest =>
    match s.sizes.lookup key with
    | none => .error .keyError
    | some sz =>
      let data := pySlice s.region (val_o + buf_o) (val_o + buf_o + sz)
      if data.any (fun b => b != 0) then
        match s.varTypes.lookup key with
        | none => .error .keyError
        | some ty => (structUnpack ty data).map Option.some
      else telemetryLoop s key val_o rest

/-- `API.telemetry(key)`: `val_o = self._var_offsets[key]` (KeyError when the
name is absent), then the buffer loop. -/
def telemetry (s : Session) (key : List Byte) : Except PyErr (Option Value) :=
  match s.varOffsets.lookup key with
  | none => .error .keyError
  | some val_o => telemetryLoop s key val_o s.bufferOffsets

/-- A value of the session metadata document (nested mapping). -/
inductive MetaVal where
  | scalar (s : List Byte)
  | seq (l : List MetaVal)
  | map (m : List (List Byte × MetaVal))

/-- Result of `API.__getitem__`: which branch answered, and with what. -/
inductive ItemResult where
  | telem (v : Except PyErr (Option Value))
  | meta (v : Except PyErr MetaVal)

/-- `API.__getitem__`: `if key in self._telemetry_names: return
self.telemetry(key) else: return self._yaml_dict[key]`. -/
def getitem (s : Session) (yamlDict : List (List Byte × MetaVal))
    (key : List Byte) : ItemResult :=
  if key ∈ s.telemNames then .telem (telemetry s key)
  else
    .meta (match yamlDict.lookup key with
           | some v => .ok v
           | none => .error .keyError)

/-- A session whose region's sentinel byte is 0 (producer not alive) but whose
resolved offsets still point at decodable data: variable `X` (byte 88) of type
`'c'` at offset 1, all three buffer bases 0. -/
def deadSession : Session :=
  { region := [0, 7]
    varOffsets := [([88], 1)]
    sizes := [([88], 1)]
    varTypes := [([88], 'c')]
    bufferOffsets := [0, 0, 0]
    telemNames := [[88]] }

/-- A session with no variables at all. -/
def emptySession : Session :=
  { region := []
    varOffsets := []
    sizes := []
    varTypes := []
    bufferOffsets := []
    telemNames := [] }

/-- A session for exercising the triple-buffer selection: variable `S`
(byte 83) of type `'c'` at offset 0, buffer bases 0, 1, 2 over region
`[0, 9, 0]`, so buffer 0's slice is all-zero and buffer 1's is not. -/
def bufSession : Session :=
  { region := [0, 9, 0]
    varOffsets := [([83], 0)]
    sizes := [([83], 1)]
    varTypes := [([83], 'c')]
    bufferOffsets := [0, 1, 2]
    telemNames := [[83]] }

/-- A well-formed 144-byte descriptor record: type code 2 (`Int32`), name
field `Speed` at offset 16, zero padding elsewhere. -/
def recordWit : List Byte :=
  [2, 0, 0, 0] ++ List.replicate 12 0 ++
    ([83, 112, 101, 101, 100] ++ List.replicate 27 0) ++ List.replicate 96 0

/-- Bytes after the metadata boundary: two padding zeros, one well-formed
record, then an all-zero (terminator) record. -/
def afterYamlWit : List Byte :=
  [0, 0] ++ recordWit ++ List.replicate 144 0

/-- Python 2 byte-string comparison: lexicographic on byte values. -/
def leLex : List Byte → List Byte → Bool
  | [], _ => true
  | _ :: _, [] => false
  | a :: as, b :: bs => if a < b then true else if b < a then false else leLex as bs

/-- `API.keys()`: `sorted(self._yaml_dict.keys() + self._telemetry_names)` —
list concatenation, then Python's ascending sort (a stable comparison sort,
modelled by `mergeSort` under byte-string order). -/
def keysFn (yamlDict : List (List Byte × MetaVal)) (s : Session) :
    List (List Byte) :=
  ((yamlDict.map Prod.fst) ++ s.telemNames).mergeSort leLex

/-- A metadata document whose single top-level key `S` (byte 83) collides
with the telemetry variable name of `bufSession`. -/
def yamlDictWit : List (List Byte × MetaVal) := [([83], .scalar [70])]

end IRacing

namespace IRacing

/-! ## Helper lemmas -/

lemma yamlEndAux_nil : ∀ fuel offset, yamlEndAux fuel [] offset = none
  | 0, _ => rfl
  | fuel + 1, offset => by
    simp only [yamlEndAux, readlineL]
    rw [if_neg (by decide)]
    exact yamlEndAux_nil fuel offset

/-! ## Claim theorems -/

/-- Claim C9: the liveness check `_iracing_alive` is total — on any read
failure (the `try` body raising) it returns `false`, and on a readable region
it returns whether the first byte equals the alive marker `'\x01'`; it never
propagates an exception (its result type is `Bool`). -/
theorem iracingAlive_total :
    (∀ e : PyErr, iracingAlive (.error e) = false) ∧
    (∀ region : List Byte, iracingAlive (.ok region) = (region.head? == some 1)) := by
  constructor
  · intro e; rfl
  · intro region; cases region <;> rfl

/-- Claim C8: when a variable name is absent from the per-variable offset
table, `telemetry` fails with a `KeyError` (the design's `UnknownVariable`).
The failure is per-call: `telemetry` is a pure function of the resolved
session state, which it does not modify. -/
theorem telemetry_absent_key_error (s : Session) (key : List Byte)
    (h : s.varOffsets.lookup key = none) :
    telemetry s key = .error .keyError := by
  unfold telemetry
  rw [h]

theorem telemetry_absent_key_error_witness :
    telemetry emptySession [89] = .error .keyError :=
  telemetry_absent_key_error emptySession [89] (by decide)

/-- Claim C4 counterexample: a descriptor type code of `-1` (outside the
known enum) does not make type resolution fail — Python's negative list
indexing silently yields `TYPEMAP[-1] = 'd'` (`Float64`). -/
theorem varTypeFor_neg_one_silently_decodes : varTypeFor (-1) = .ok 'd' := by
  rfl

/-- Claim C4 (amended): type codes `≥ 6` or `< -6` make type resolution fail
with `IndexError`, but a type code in `-6..-1` silently resolves, via
Python's negative indexing, to the type at position `code + 6` of `TYPEMAP`
instead of failing. -/
theorem varTypeFor_out_of_enum (code : Int) :
    ((6 ≤ code ∨ code < -6) → varTypeFor code = .error .indexError) ∧
    (-6 ≤ code → code < 0 →
      varTypeFor code = .ok (TYPEMAP.getD (code + 6).toNat 'c')) := by
  constructor
  · intro h
    unfold varTypeFor pyListGet
    rw [if_neg, if_neg]
    · simp only [TYPEMAP, List.length_cons, List.length_nil]
      omega
    · simp only [TYPEMAP, List.length_cons, List.length_nil]
      omega
  · intro h1 h2
    unfold varTypeFor pyListGet
    rw [if_neg, if_pos]
    · simp [TYPEMAP]
    · constructor
      · simp only [TYPEMAP, List.length_cons, List.length_nil]
        omega
      · exact h2
    · omega

theorem varTypeFor_out_of_enum_witness :
    varTypeFor 7 = .error .indexError ∧ varTypeFor (-2) = .ok 'f' :=
  ⟨(varTypeFor_out_of_enum 7).1 (Or.inl (by norm_num)),
   ((varTypeFor_out_of_enum (-2)).2 (by norm_num) (by norm_num)).trans rfl⟩

/-- Claim C5: on a region containing no `...` line (here the two bytes of
`"a\n"` and then nothing), the boundary scanner never returns: the loop keeps
reading the empty string at EOF forever.  In the fuel model, no amount of
fuel makes `_yaml_end` produce a result. -/
theorem yamlEnd_no_terminator_never_returns :
    ∀ fuel, yamlEndFull [97, 10] fuel = none := by
  intro fuel
  have h : readlineL [97, 10] = ([97, 10], []) := rfl
  simp [yamlEndFull, h, yamlEndAux_nil]

/-- Claim C6 counterexample: in `deadSession` the sentinel byte at offset 0
is `0`, so `isConnected` is `false`, yet `telemetry` does not fail with any
disconnection signal — it decodes and returns a value. -/
theorem telemetry_ignores_dead_sentinel :
    iracingAlive (.ok deadSession.region) = false ∧
    telemetry deadSession [88] = .ok (some (.char 7)) := by
  constructor <;> rfl

/-- Claim C6 (amended): when the sentinel byte at offset 0 differs from the
alive marker, `isConnected` (`_iracing_alive`) returns `false`; but
`telemetry` does not consult the liveness check — it is only consulted at
construction — and there are sessions with a dead sentinel on which
`telemetry` still returns a decoded value. -/
theorem alive_false_but_telemetry_decodes :
    (∀ region : List Byte, region.head? ≠ some 1 →
      iracingAlive (.ok region) = false) ∧
    (∃ s : Session, ∃ key : List Byte, ∃ v : Value,
      iracingAlive (.ok s.region) = false ∧ telemetry s key = .ok (some v)) := by
  constructor
  · intro region h
    cases region with
    | nil => rfl
    | cons b bs =>
      simp only [iracingAlive, List.head?]
      simp only [ne_eq, List.head?, Option.some.injEq] at h
      simp [h]
  · exact ⟨deadSession, [88], .char 7, rfl, rfl⟩

theorem alive_false_but_telemetry_decodes_witness :
    iracingAlive (.ok [0, 7]) = false :=
  alive_false_but_telemetry_decodes.1 [0, 7] (by decide)

end IRacing

namespace IRacing

lemma structCalcsize_pos (t : Char) (ht : t ∈ TYPEMAP) : 0 < structCalcsize t := by
  fin_cases ht <;> decide

lemma structUnpack_ok (t : Char) (data : List Byte) (ht : t ∈ TYPEMAP)
    (h : data.length = structCalcsize t) :
    structUnpack t data = .ok (decodeVal t data) := by
  simp [structUnpack, ht, h]

lemma structUnpack_len_err (t : Char) (data : List Byte)
    (h : data.length ≠ structCalcsize t) :
    structUnpack t data = .error .structError := by
  unfold structUnpack
  rcases Decidable.em (t ∈ TYPEMAP) with hm | hm
  · rw [if_pos hm, if_neg h]
  · rw [if_neg hm]

lemma pySlice_nat_length (l : List Byte) (a : Nat) (sz : Nat) :
    (pySlice l (a : Int) ((a : Int) + (sz : Nat))).length
      = min (a + sz) l.length - min a l.length := by
  simp only [pySlice]
  rw [if_neg (by omega), if_neg (by omega)]
  simp only [List.length_drop, List.length_take]
  have h1 : ((a : Int) + (sz : Nat)).toNat = a + sz := by omega
  have h2 : ((a : Int)).toNat = a := by omega
  rw [h1, h2]
  omega

/-- Claim C7: the raw region read `_get(position, type)` fails (with
`struct.error`, the code-level face of `OutOfBounds`: the Python slice
silently truncates and `struct.unpack` rejects the short data) exactly when
`position + width` exceeds the region size, and on any in-bounds read the
examined slice has exactly the requested width and the decoded value is
returned. -/
theorem pyGet_bounds (region : List Byte) (position : Nat) (t : Char)
    (ht : t ∈ TYPEMAP) :
    (region.length < position + structCalcsize t →
      pyGet region position t = .error .structError) ∧
    (position + structCalcsize t ≤ region.length →
      (pySlice region (position : Int) ((position : Int) + (structCalcsize t : Nat))).length
          = structCalcsize t ∧
      pyGet region position t =
        .ok (decodeVal t
          (pySlice region (position : Int) ((position : Int) + (structCalcsize t : Nat))))) := by
  have hsz := structCalcsize_pos t ht
  have hlen := pySlice_nat_length region position (structCalcsize t)
  constructor
  · intro hoob
    apply structUnpack_len_err
    rw [hlen]
    omega
  · intro hin
    have hfull : (pySlice region (position : Int)
        ((position : Int) + (structCalcsize t : Nat))).length = structCalcsize t := by
      rw [hlen]; omega
    exact ⟨hfull, structUnpack_ok t _ ht hfull⟩

theorem pyGet_bounds_witness :
    pyGet [1, 2, 3] 1 'i' = .error .structError ∧
    pyGet [1, 2, 3, 4, 5] 1 'i' = .ok (Value.int 84148994) :=
  ⟨(pyGet_bounds [1, 2, 3] 1 'i' (by decide)).1 (by decide),
   (((pyGet_bounds [1, 2, 3, 4, 5] 1 'i' (by decide)).2 (by decide)).2).trans rfl⟩

lemma telemetryLoop_cons_nonzero (s : Session) (key : List Byte) (val_o : Int)
    (sz : Nat) (ty : Char) (buf_o : Int) (rest : List Int)
    (hsz : s.sizes.lookup key = some sz)
    (hty : s.varTypes.lookup key = some ty)
    (hnz : (pySlice s.region (val_o + buf_o) (val_o + buf_o + sz)).any
      (fun b => b != 0) = true) :
    telemetryLoop s key val_o (buf_o :: rest)
      = (structUnpack ty (pySlice s.region (val_o + buf_o) (val_o + buf_o + sz))).map
          Option.some := by
  unfold telemetryLoop
  rw [hsz]
  simp only [hnz, if_true, hty]

lemma telemetryLoop_cons_zero (s : Session) (key : List Byte) (val_o : Int)
    (sz : Nat) (buf_o : Int) (rest : List Int)
    (hsz : s.sizes.lookup key = some sz)
    (hz : (pySlice s.region (val_o + buf_o) (val_o + buf_o + sz)).any
      (fun b => b != 0) = false) :
    telemetryLoop s key val_o (buf_o :: rest) = telemetryLoop s key val_o rest := by
  conv_lhs => unfold telemetryLoop
  rw [hsz]
  simp [hz]

lemma any_nonzero_of_exists {d : List Byte} (h : ∃ x ∈ d, x ≠ 0) :
    d.any (fun b => b != 0) = true := by
  rcases h with ⟨x, hx, hne⟩
  exact List.any_eq_true.2 ⟨x, hx, by simpa using hne⟩

lemma any_nonzero_of_all_zero {d : List Byte} (h : ∀ x ∈ d, x = 0) :
    d.any (fun b => b != 0) = false := by
  simp only [List.any_eq_false]
  intro x hx
  simpa using h x hx

/-- Claim C1: for a resolved session and a name present in the offset table,
`telemetry` examines the byte slice at `bufferBase + variableOffset` of the
variable's type width in each of the 3 buffers in order, returns the value
decoded from the first slice containing a nonzero byte, and when all three
slices are entirely zero returns Python `None` (`Option.none`, the `Unknown`
sentinel — a value distinct from every decoded scalar, in particular from a
zero sample) without raising any decode error. -/
theorem telemetry_triple_buffer_first_nonzero (s : Session) (key : List Byte)
    (v : Int) (ty : Char) (b0 b1 b2 : Int) (d0 d1 d2 : List Byte)
    (hoff : s.varOffsets.lookup key = some v)
    (hsz : s.sizes.lookup key = some (structCalcsize ty))
    (hty : s.varTypes.lookup key = some ty)
    (hbuf : s.bufferOffsets = [b0, b1, b2])
    (hmem : ty ∈ TYPEMAP)
    (hd0 : d0 = pySlice s.region (v + b0) (v + b0 + structCalcsize ty))
    (hd1 : d1 = pySlice s.region (v + b1) (v + b1 + structCalcsize ty))
    (hd2 : d2 = pySlice s.region (v + b2) (v + b2 + structCalcsize ty))
    (hl0 : d0.length = structCalcsize ty)
    (hl1 : d1.length = structCalcsize ty)
    (hl2 : d2.length = structCalcsize ty) :
    ((∃ x ∈ d0, x ≠ 0) → telemetry s key = .ok (some (decodeVal ty d0))) ∧
    ((∀ x ∈ d0, x = 0) → (∃ x ∈ d1, x ≠ 0) →
      telemetry s key = .ok (some (decodeVal ty d1))) ∧
    ((∀ x ∈ d0, x = 0) → (∀ x ∈ d1, x = 0) → (∃ x ∈ d2, x ≠ 0) →
      telemetry s key = .ok (some (decodeVal ty d2))) ∧
    ((∀ x ∈ d0, x = 0) → (∀ x ∈ d1, x = 0) → (∀ x ∈ d2, x = 0) →
      telemetry s key = .ok none) := by
  have hstart : telemetry s key = telemetryLoop s key v [b0, b1, b2] := by
    unfold telemetry
    rw [hoff, hbuf]
  refine ⟨?_, ?_, ?_, ?_⟩
  · intro hx
    rw [hstart,
      telemetryLoop_cons_nonzero s key v (structCalcsize ty) ty b0 _ hsz hty
        (by rw [← hd0]; exact any_nonzero_of_exists hx),
      ← hd0, structUnpack_ok ty d0 hmem hl0]
    rfl
  · intro h0 hx
    rw [hstart,
      telemetryLoop_cons_zero s key v (structCalcsize ty) b0 _ hsz
        (by rw [← hd0]; exact any_nonzero_of_all_zero h0),
      telemetryLoop_cons_nonzero s key v (structCalcsize ty) ty b1 _ hsz hty
        (by rw [← hd1]; exact any_nonzero_of_exists hx),
      ← hd1, structUnpack_ok ty d1 hmem hl1]
    rfl
  · intro h0 h1 hx
    rw [hstart,
      telemetryLoop_cons_zero s key v (structCalcsize ty) b0 _ hsz
        (by rw [← hd0]; exact any_nonzero_of_all_zero h0),
      telemetryLoop_cons_zero s key v (structCalcsize ty) b1 _ hsz
        (by rw [← hd1]; exact any_nonzero_of_all_zero h1),
      telemetryLoop_cons_nonzero s key v (structCalcsize ty) ty b2 _ hsz hty
        (by rw [← hd2]; exact any_nonzero_of_exists hx),
      ← hd2, structUnpack_ok ty d2 hmem hl2]
    rfl
  · intro h0 h1 h2
    rw [hstart,
      telemetryLoop_cons_zero s key v (structCalcsize ty) b0 _ hsz
        (by rw [← hd0]; exact any_nonzero_of_all_zero h0),
      telemetryLoop_cons_zero s key v (structCalcsize ty) b1 _ hsz
        (by rw [← hd1]; exact any_nonzero_of_all_zero h1),
      telemetryLoop_cons_zero s key v (structCalcsize ty) b2 _ hsz
        (by rw [← hd2]; exact any_nonzero_of_all_zero h2)]
    rfl

theorem telemetry_triple_buffer_first_nonzero_witness :
    telemetry bufSession [83] = .ok (some (.char 9)) :=
  (telemetry_triple_buffer_first_nonzero bufSession [83] 0 'c' 0 1 2
      [0] [9] [0] rfl rfl rfl rfl (by decide) rfl rfl rfl rfl rfl rfl).2.1
    (by decide) ⟨9, by decide, by decide⟩

end IRacing

namespace IRacing

lemma telemetryNamesFrom_terminator (term rest : List Byte)
    (hterm : term.length = 144) (hname : headerName term = []) :
    telemetryNamesFrom (term ++ rest) = [] := by
  unfold telemetryNamesFrom
  rw [← hterm, List.take_left, dif_pos hname]

lemma telemetryNamesFrom_cons (r tail : List Byte) (hr : r.length = 144)
    (hname : headerName r ≠ []) :
    telemetryNamesFrom (r ++ tail) = headerName r :: telemetryNamesFrom tail := by
  conv_lhs => unfold telemetryNamesFrom
  rw [← hr, List.take_left, List.drop_left, dif_neg hname]

/-- Claim C3: when the bytes at the first non-zero byte after the boundary
form `N` well-formed 144-byte records followed by a 144-byte record whose
name field is empty, `_telemetry_names` returns exactly the `N` names, in
record order (so descriptor `i` sits at list index `i`, `0..N-1`), and the
empty-name record terminates the scan without any error. -/
theorem telemetryNames_table_shape (records : List (List Byte))
    (term rest afterYaml : List Byte)
    (hrec : ∀ r ∈ records, r.length = 144 ∧ headerName r ≠ [])
    (hterm : term.length = 144) (htermName : headerName term = [])
    (hscan : afterYaml.dropWhile (fun b => b == 0)
      = records.flatten ++ (term ++ rest)) :
    telemetryNames afterYaml = records.map headerName ∧
    (telemetryNames afterYaml).length = records.length := by
  have key : ∀ (rs : List (List Byte)),
      (∀ r ∈ rs, r.length = 144 ∧ headerName r ≠ []) →
      telemetryNamesFrom (rs.flatten ++ (term ++ rest)) = rs.map headerName := by
    intro rs
    induction rs with
    | nil =>
      intro _
      simpa using telemetryNamesFrom_terminator term rest hterm htermName
    | cons r rs ih =>
      intro hall
      obtain ⟨hr1, hr2⟩ := hall r (List.mem_cons_self r rs)
      rw [List.flatten_cons, List.append_assoc, telemetryNamesFrom_cons r _ hr1 hr2,
        ih (fun q hq => hall q (List.mem_cons_of_mem r hq)), List.map_cons]
  constructor
  · rw [telemetryNames, hscan, key records hrec]
  · rw [telemetryNames, hscan, key records hrec, List.length_map]

set_option maxRecDepth 10000 in
theorem telemetryNames_table_shape_witness :
    telemetryNames afterYamlWit = [[83, 112, 101, 101, 100]] ∧
    (telemetryNames afterYamlWit).length = 1 := by
  have h := telemetryNames_table_shape [recordWit] (List.replicate 144 0) []
    afterYamlWit
    (by
      intro r hr
      simp only [List.mem_singleton] at hr
      subst hr
      exact ⟨by decide, by decide⟩)
    (by decide) (by decide) (by decide)
  exact ⟨h.1.trans (by decide), h.2⟩

lemma readlineL_line (core rest : List Byte) (h : (10 : Byte) ∉ core) :
    readlineL (core ++ 10 :: rest) = (core ++ [10], rest) := by
  induction core with
  | nil => simp [readlineL]
  | cons b bs ih =>
    have hb : b ≠ 10 := fun e => h (by simp [e])
    have hbs : (10 : Byte) ∉ bs := fun m => h (List.mem_cons_of_mem _ m)
    have ihr := ih hbs
    simp [readlineL, if_neg hb, ihr]

/-- A line as produced by `readline` strictly before EOF: some content with
no interior newline, ending in the newline byte. -/
def IsNLLine (l : List Byte) : Prop :=
  ∃ core, l = core ++ [10] ∧ (10 : Byte) ∉ core

lemma yamlEndAux_docs (rest : List Byte) :
    ∀ (docs : List (List Byte)),
      (∀ l ∈ docs, IsNLLine l ∧ pyStrip l ≠ [46, 46, 46]) →
      ∀ fuel offset, docs.length < fuel →
      yamlEndAux fuel (docs.flatten ++ ([46, 46, 46, 10] ++ rest)) offset
        = some (offset + (docs.map List.length).sum) := by
  intro docs
  induction docs with
  | nil =>
    intro _ fuel offset hf
    cases fuel with
    | zero => simp at hf
    | succ k =>
      have hr : readlineL ([46, 46, 46, 10] ++ rest) = ([46, 46, 46, 10], rest) := by
        simpa using readlineL_line [46, 46, 46] rest (by decide)
      simp only [List.flatten_nil, List.nil_append, yamlEndAux, hr]
      rw [if_pos (by decide)]
      simp
  | cons d ds ih =>
    intro hall fuel offset hf
    obtain ⟨⟨core, hcd, hnc⟩, hstrip⟩ := hall d (List.mem_cons_self d ds)
    cases fuel with
    | zero => simp at hf
    | succ k =>
      subst hcd
      have hk : ds.length < k := by
        simp only [List.length_cons] at hf
        omega
      have harr : ((core ++ [10]) :: ds).flatten ++ ([46, 46, 46, 10] ++ rest)
          = core ++ 10 :: (ds.flatten ++ ([46, 46, 46, 10] ++ rest)) := by
        simp
      rw [harr]
      simp only [yamlEndAux, readlineL_line core _ hnc]
      rw [if_neg hstrip]
      have hrec2 := ih (fun q hq => hall q (List.mem_cons_of_mem _ hq)) k
        (offset + (core ++ [10]).length) hk
      refine hrec2.trans ?_
      congr 1
      simp only [List.map_cons, List.sum_cons]
      omega

/-- Claim C2 counterexample: the region `"h\n...\n"` has a well-formed
terminator, and the scanner returns offset 6 — which equals the region size,
not an offset strictly less than it. -/
theorem yamlEnd_boundary_at_region_end :
    yamlEndFull [104, 10, 46, 46, 46, 10] 1 = some 6 ∧
    ([104, 10, 46, 46, 46, 10] : List Byte).length = 6 ∧
    ¬ (6 < ([104, 10, 46, 46, 46, 10] : List Byte).length) :=
  ⟨rfl, rfl, by decide⟩

/-- Claim C2 (amended): for a region made of a header line, document lines
none of which strips to `...`, a well-formed terminator line `...` and a
tail, the boundary scanner returns exactly the accumulated byte length of the
header line plus all document lines plus the fixed 4-byte constant; this
offset is strictly greater than 0, equal to the byte position just past the
terminator line, and at most the region size — strictly less whenever any
byte follows the terminator line (but equal to the region size when nothing
does). -/
theorem yamlEnd_boundary_correct (hcore : List Byte) (docs : List (List Byte))
    (rest : List Byte) (fuel : Nat)
    (hh : (10 : Byte) ∉ hcore)
    (hdocs : ∀ l ∈ docs, IsNLLine l ∧ pyStrip l ≠ [46, 46, 46])
    (hfuel : docs.length < fuel) :
    yamlEndFull ((hcore ++ [10]) ++ (docs.flatten ++ ([46, 46, 46, 10] ++ rest))) fuel
        = some ((hcore ++ [10]).length + (docs.map List.length).sum + 4) ∧
    0 < (hcore ++ [10]).length + (docs.map List.length).sum + 4 ∧
    (hcore ++ [10]).length + (docs.map List.length).sum + 4
        ≤ ((hcore ++ [10]) ++ (docs.flatten ++ ([46, 46, 46, 10] ++ rest))).length ∧
    (rest ≠ [] →
      (hcore ++ [10]).length + (docs.map List.length).sum + 4
        < ((hcore ++ [10]) ++ (docs.flatten ++ ([46, 46, 46, 10] ++ rest))).length) := by
  have hread : readlineL ((hcore ++ [10]) ++ (docs.flatten ++ ([46, 46, 46, 10] ++ rest)))
      = (hcore ++ [10], docs.flatten ++ ([46, 46, 46, 10] ++ rest)) := by
    simpa using readlineL_line hcore (docs.flatten ++ ([46, 46, 46, 10] ++ rest)) hh
  have haux := yamlEndAux_docs rest docs hdocs fuel 0 hfuel
  have hlenjoin : docs.flatten.length = (docs.map List.length).sum :=
    List.length_flatten docs
  have hreglen : ((hcore ++ [10]) ++ (docs.flatten ++ ([46, 46, 46, 10] ++ rest))).length
      = (hcore ++ [10]).length + ((docs.map List.length).sum + (4 + rest.length)) := by
    simp only [List.length_append, hlenjoin, List.length_cons, List.length_nil]
    try omega
  refine ⟨?_, by omega, ?_, ?_⟩
  · simp only [yamlEndFull, hread, haux, Option.map_some']
    congr 1
    omega
  · rw [hreglen]
    omega
  · intro hne
    rw [hreglen]
    have hrl : 0 < rest.length := List.length_pos.mpr hne
    omega

theorem yamlEnd_boundary_correct_witness :
    yamlEndFull [104, 10, 97, 10, 46, 46, 46, 10, 0] 2 = some 8 ∧
    (0 : Nat) < 8 ∧ 8 ≤ 9 ∧ 8 < 9 := by
  have h := yamlEnd_boundary_correct [104] [[97, 10]] [0] 2 (by decide)
    (by
      intro l hl
      simp only [List.mem_singleton] at hl
      subst hl
      exact ⟨⟨[97], rfl, by decide⟩, by decide⟩)
    (by norm_num)
  exact ⟨h.1, by norm_num, by norm_num, by norm_num⟩

lemma leLex_trans : ∀ x y z : List Byte,
    leLex x y = true → leLex y z = true → leLex x z = true := by
  intro x
  induction x with
  | nil => intro y z h1 h2; rfl
  | cons a as ih =>
    intro y z h1 h2
    cases y with
    | nil => simp [leLex] at h1
    | cons b bs =>
      cases z with
      | nil => simp [leLex] at h2
      | cons c cs =>
        simp only [leLex] at h1 h2 ⊢
        rcases Nat.lt_trichotomy a b with hab | hab | hab
        · rcases Nat.lt_trichotomy b c with hbc | hbc | hbc
          · rw [if_pos (Nat.lt_trans hab hbc)]
          · subst hbc
            rw [if_pos hab]
          · rw [if_neg (Nat.lt_asymm hbc), if_pos hbc] at h2
            exact absurd h2 (by simp)
        · subst hab
          rw [if_neg (Nat.lt_irrefl a), if_neg (Nat.lt_irrefl a)] at h1
          rcases Nat.lt_trichotomy a c with hac | hac | hac
          · rw [if_pos hac]
          · subst hac
            rw [if_neg (Nat.lt_irrefl a), if_neg (Nat.lt_irrefl a)] at h2 ⊢
            exact ih bs cs h1 h2
          · rw [if_neg (Nat.lt_asymm hac), if_pos hac] at h2
            exact absurd h2 (by simp)
        · rw [if_neg (Nat.lt_asymm hab), if_pos hab] at h1
          exact absurd h1 (by simp)

lemma leLex_total : ∀ x y : List Byte, (leLex x y || leLex y x) = true := by
  intro x
  induction x with
  | nil => intro y; cases y <;> rfl
  | cons a as ih =>
    intro y
    cases y with
    | nil => rfl
    | cons b bs =>
      simp only [leLex]
      split_ifs <;> simp [ih bs]

/-- Claim C10: `keys()` is the sorted concatenation of the metadata
document's top-level keys with the telemetry variable names — a permutation
of the concatenation, sorted under byte-string order — so a name occurring in
both lists appears (at least) twice in the result, and `__getitem__` resolves
such a name through the telemetry branch. -/
theorem keys_sorted_concat_getitem (yamlDict : List (List Byte × MetaVal))
    (s : Session) (name : List Byte)
    (h1 : name ∈ yamlDict.map Prod.fst) (h2 : name ∈ s.telemNames) :
    (keysFn yamlDict s).Perm (yamlDict.map Prod.fst ++ s.telemNames) ∧
    List.Pairwise (fun a b => leLex a b = true) (keysFn yamlDict s) ∧
    2 ≤ ((keysFn yamlDict s).filter (fun k => k == name)).length ∧
    getitem s yamlDict name = .telem (telemetry s name) := by
  have hperm : (keysFn yamlDict s).Perm (yamlDict.map Prod.fst ++ s.telemNames) :=
    List.mergeSort_perm _ leLex
  refine ⟨hperm, ?_, ?_, ?_⟩
  · exact List.sorted_mergeSort (fun a b c => leLex_trans a b c)
      (fun a b => leLex_total a b) _
  · have hf := (hperm.filter (fun k => k == name)).length_eq
    rw [List.filter_append, List.length_append] at hf
    have e1 : name ∈ (yamlDict.map Prod.fst).filter (fun k => k == name) :=
      List.mem_filter.2 ⟨h1, by simp⟩
    have e2 : name ∈ s.telemNames.filter (fun k => k == name) :=
      List.mem_filter.2 ⟨h2, by simp⟩
    have l1 := List.length_pos.mpr (List.ne_nil_of_mem e1)
    have l2 := List.length_pos.mpr (List.ne_nil_of_mem e2)
    omega
  · simp [getitem, h2]

theorem keys_sorted_concat_getitem_witness :
    (keysFn yamlDictWit bufSession).Perm
        (yamlDictWit.map Prod.fst ++ bufSession.telemNames) ∧
    List.Pairwise (fun a b => leLex a b = true) (keysFn yamlDictWit bufSession) ∧
    2 ≤ ((keysFn yamlDictWit bufSession).filter (fun k => k == [83])).length ∧
    getitem bufSession yamlDictWit [83] = .telem (telemetry bufSession [83]) :=
  keys_sorted_concat_getitem yamlDictWit bufSession [83] (by decide) (by decide)

end IRacing
